import Mathlib

/-!
Verification of the apitools client-generation pipeline
(`apitools/gen/gen_client_lib.py` and `apitools/gen/gen_client.py`).

The Python code is shallowly embedded: dictionaries become association
lists, in-place dictionary mutation becomes explicit state passing (the
possibly-updated document is returned alongside the computed value),
exceptions become `Except`, and external collaborators (`urlparse.urljoin`,
the filesystem, the network fetch, the registries living outside these two
files) become explicit parameters.  Strings manipulated character-wise are
modelled as `List Char`.
-/

namespace Apitools

/-! ## String scanning utilities (models of Python `in` and `str.rpartition`) -/

/-- All indices `i` (with `i ≤ s.length`) at which `sub` occurs in `s`,
in increasing order. -/
def occList (sub s : List Char) : List Nat :=
  (List.range (s.length + 1)).filter (fun i => sub.isPrefixOf (s.drop i))

/-- Model of Python `sub in s` (substring containment test). -/
def strContains (s sub : List Char) : Bool :=
  !(occList sub s).isEmpty

/-- Model of Python `s.rpartition(sep)`: split `s` at the last occurrence of
`sep`, returning `(head, sep, tail)`; if `sep` does not occur, returns
`('', '', s)`. -/
def rpartition (s sep : List Char) : List Char × List Char × List Char :=
  match (occList sep s).getLast? with
  | none => ([], [], s)
  | some i => (s.take i, sep, s.drop (i + sep.length))

/-- `occursAt sub s i`: `sub` occurs in `s` starting at index `i`. -/
def occursAt (sub s : List Char) (i : Nat) : Prop :=
  sub <+: s.drop i

theorem mem_occList {sub s : List Char} {i : Nat} :
    i ∈ occList sub s ↔ i < s.length + 1 ∧ occursAt sub s i := by
  simp only [occList, List.mem_filter, List.mem_range, occursAt,
    List.isPrefixOf_iff_prefix]

theorem occursAt_le_length {sub s : List Char} {i : Nat}
    (hne : sub ≠ []) (h : occursAt sub s i) : i ≤ s.length := by
  by_contra hlt
  push_neg at hlt
  have hdrop : s.drop i = [] := List.drop_eq_nil_of_le (le_of_lt hlt)
  rcases h with ⟨t, ht⟩
  rw [hdrop] at ht
  exact hne (List.append_eq_nil.mp ht).1

theorem mem_occList_of_occursAt {sub s : List Char} {i : Nat}
    (hne : sub ≠ []) (h : occursAt sub s i) : i ∈ occList sub s :=
  mem_occList.mpr ⟨Nat.lt_succ_of_le (occursAt_le_length hne h), h⟩

theorem occList_pairwise (sub s : List Char) :
    (occList sub s).Pairwise (· < ·) :=
  (List.pairwise_lt_range _).filter _

/-- The last element of a `(· < ·)`-pairwise list is an upper bound. -/
theorem le_getLast_of_pairwise : ∀ {l : List Nat}, l.Pairwise (· < ·) →
    ∀ {x m : Nat}, x ∈ l → l.getLast? = some m → x ≤ m := by
  intro l
  induction l with
  | nil => intro _ x m hx; cases hx
  | cons a t ih =>
    intro hp x m hx hm
    cases t with
    | nil =>
      simp only [List.getLast?_singleton, Option.some.injEq] at hm
      rcases List.mem_singleton.mp hx with h
      omega
    | cons b t2 =>
      have hrest : (b :: t2).getLast? = some m := by
        rwa [List.getLast?_cons_cons] at hm
      have hp2 : (b :: t2).Pairwise (· < ·) := hp.tail
      rcases List.mem_cons.mp hx with hxa | hxt
      · subst hxa
        have hab : x < b := (List.pairwise_cons.mp hp).1 b (List.mem_cons_self b t2)
        have hbm : b ≤ m := ih hp2 (List.mem_cons_self b t2) hrest
        omega
      · exact ih hp2 hxt hrest

theorem getLast_occList_max {sub s : List Char} {i j : Nat}
    (hne : sub ≠ []) (hlast : (occList sub s).getLast? = some i)
    (hj : occursAt sub s j) : j ≤ i :=
  le_getLast_of_pairwise (occList_pairwise sub s)
    (mem_occList_of_occursAt hne hj) hlast

theorem getLast?_mem_occList {sub s : List Char} {i : Nat}
    (hlast : (occList sub s).getLast? = some i) : i ∈ occList sub s :=
  List.mem_of_mem_getLast? (Option.mem_def.mpr hlast)

theorem isSubstring_iff_exists_occursAt {sub s : List Char} :
    sub <:+: s ↔ ∃ i, occursAt sub s i := by
  constructor
  · rintro ⟨t, u, rfl⟩
    exact ⟨t.length, u, by simp⟩
  · rintro ⟨i, t, ht⟩
    exact ⟨s.take i, t, by rw [List.append_assoc, ht, List.take_append_drop]⟩

theorem strContains_iff_substring {s sub : List Char} (hne : sub ≠ []) :
    strContains s sub = true ↔ sub <:+: s := by
  rw [isSubstring_iff_exists_occursAt]
  simp only [strContains, Bool.not_eq_true', List.isEmpty_eq_false, ne_eq]
  constructor
  · intro h
    rcases List.exists_mem_of_ne_nil _ h with ⟨i, hi⟩
    exact ⟨i, (mem_occList.mp hi).2⟩
  · rintro ⟨i, hi⟩
    exact List.ne_nil_of_mem (mem_occList_of_occursAt hne hi)

/-! ## `_ComputePaths` (gen_client_lib.py lines 35–44)

`urlparse.urljoin` is an external collaborator (Python standard library);
it is abstracted as a parameter `join`.  The non-fatal warning logged by
`logging.warning` is modelled as the `Bool` component of the result. -/

/-- Model of `_ComputePaths(package, version, discovery_doc)`:
`full_path = urljoin(rootUrl, servicePath)`;
`api_path_component = '/'.join((package, version, ''))`; if the component is
not a substring of `full_path`, warn and return `(full_path, '')`; otherwise
split at the last occurrence (`str.rpartition`) and return
`(head ++ component, tail)`.  The result is `((base_url, base_path), warned)`. -/
def apiComponent (package version : List Char) : List Char :=
  package ++ ['/'] ++ version ++ ['/']

/-- Model of `_ComputePaths` itself; see the comment above. -/
def computePaths (join : List Char → List Char → List Char)
    (package version rootUrl servicePath : List Char) :
    (List Char × List Char) × Bool :=
  let full_path := join rootUrl servicePath
  let api_path_component := apiComponent package version
  if strContains full_path api_path_component = false then
    ((full_path, []), true)
  else
    let p := rpartition full_path api_path_component
    ((p.1 ++ api_path_component, p.2.2), false)

/-- The component always ends in `'/'`, hence is never empty. -/
theorem apiComponent_ne_nil (package version : List Char) :
    apiComponent package version ≠ [] := by
  simp [apiComponent]

/-- Reassembling a string around an occurrence of `sub` at index `i`. -/
theorem occursAt_decompose {sub s : List Char} {i : Nat} (h : occursAt sub s i) :
    s.take i ++ sub ++ s.drop (i + sub.length) = s := by
  rcases h with ⟨t, ht⟩
  have hdrop : s.drop (i + sub.length) = t := by
    rw [← List.drop_drop, ← ht, List.drop_left]
  rw [hdrop, List.append_assoc, ht, List.take_append_drop]

theorem computePaths_of_not_contains
    {join : List Char → List Char → List Char}
    {package version rootUrl servicePath : List Char}
    (hnot : strContains (join rootUrl servicePath)
      (apiComponent package version) = false) :
    computePaths join package version rootUrl servicePath =
      ((join rootUrl servicePath, []), true) := by
  simp only [computePaths]
  rw [if_pos hnot]

theorem computePaths_of_contains
    {join : List Char → List Char → List Char}
    {package version rootUrl servicePath : List Char} {i : Nat}
    (hc : strContains (join rootUrl servicePath)
      (apiComponent package version) = true)
    (hlast : (occList (apiComponent package version)
      (join rootUrl servicePath)).getLast? = some i) :
    computePaths join package version rootUrl servicePath =
      (((join rootUrl servicePath).take i ++ apiComponent package version,
        (join rootUrl servicePath).drop
          (i + (apiComponent package version).length)), false) := by
  simp only [computePaths, rpartition]
  rw [if_neg (by simp [hc]), hlast]

theorem occList_getLast?_isSome_of_contains
    {s sub : List Char} (hc : strContains s sub = true) :
    ∃ i, (occList sub s).getLast? = some i := by
  have hne : occList sub s ≠ [] := by
    simpa only [strContains, Bool.not_eq_true', List.isEmpty_eq_false] using hc
  rcases Option.isSome_iff_exists.mp (List.getLast?_isSome.mpr hne) with ⟨i, hi⟩
  exact ⟨i, hi⟩

/-- **C1.** `_ComputePaths` joins `rootUrl` and `servicePath` (the join being
the external `urlparse.urljoin`, abstracted as `join`) and splits the result
on the component `package/version/`: if the component occurs in the joined
URL, it returns — without warning — a base URL that is a portion of the
joined URL ending in that component, together with the leftover suffix, the
two concatenating back to the joined URL; if the component is absent, it
logs a non-fatal warning and returns the entire joined URL as the base with
an empty path suffix. -/
theorem computePaths_split_correct
    (join : List Char → List Char → List Char)
    (package version rootUrl servicePath : List Char) :
    (apiComponent package version <:+: join rootUrl servicePath →
       (computePaths join package version rootUrl servicePath).2 = false ∧
       apiComponent package version <:+
         (computePaths join package version rootUrl servicePath).1.1 ∧
       (computePaths join package version rootUrl servicePath).1.1 ++
         (computePaths join package version rootUrl servicePath).1.2 =
         join rootUrl servicePath) ∧
    (¬ apiComponent package version <:+: join rootUrl servicePath →
       (computePaths join package version rootUrl servicePath).2 = true ∧
       (computePaths join package version rootUrl servicePath).1.1 =
         join rootUrl servicePath ∧
       (computePaths join package version rootUrl servicePath).1.2 = []) := by
  have hne := apiComponent_ne_nil package version
  constructor
  · intro hin
    have hc : strContains (join rootUrl servicePath)
        (apiComponent package version) = true :=
      (strContains_iff_substring hne).mpr hin
    rcases occList_getLast?_isSome_of_contains hc with ⟨i, hlast⟩
    rw [computePaths_of_contains hc hlast]
    have hocc : occursAt (apiComponent package version)
        (join rootUrl servicePath) i :=
      (mem_occList.mp (getLast?_mem_occList hlast)).2
    refine ⟨rfl, ⟨_, rfl⟩, ?_⟩
    exact occursAt_decompose hocc
  · intro hout
    have hc : strContains (join rootUrl servicePath)
        (apiComponent package version) = false := by
      rcases Bool.eq_false_or_eq_true
        (strContains (join rootUrl servicePath)
          (apiComponent package version)) with h | h
      · exact absurd ((strContains_iff_substring hne).mp h) hout
      · exact h
    rw [computePaths_of_not_contains hc]
    exact ⟨rfl, rfl, rfl⟩

/-- **C1 witness.** A concrete instantiation: both branches of the
specification are exercised at explicit inputs. -/
theorem computePaths_split_correct_witness :
    ((apiComponent "pkg".data "v1".data <:+:
        ("https://x.com/".data ++ "pkg/v1/".data)) ∧
      ((computePaths (· ++ ·) "pkg".data "v1".data "https://x.com/".data
          "pkg/v1/".data).2 = false ∧
        apiComponent "pkg".data "v1".data <:+
          (computePaths (· ++ ·) "pkg".data "v1".data "https://x.com/".data
            "pkg/v1/".data).1.1 ∧
        (computePaths (· ++ ·) "pkg".data "v1".data "https://x.com/".data
            "pkg/v1/".data).1.1 ++
          (computePaths (· ++ ·) "pkg".data "v1".data "https://x.com/".data
            "pkg/v1/".data).1.2 =
          ("https://x.com/".data ++ "pkg/v1/".data))) ∧
    ((¬ apiComponent "a".data "b".data <:+:
        ("https://x.com/".data ++ "other/".data)) ∧
      ((computePaths (· ++ ·) "a".data "b".data "https://x.com/".data
          "other/".data).2 = true ∧
        (computePaths (· ++ ·) "a".data "b".data "https://x.com/".data
          "other/".data).1.1 =
          ("https://x.com/".data ++ "other/".data) ∧
        (computePaths (· ++ ·) "a".data "b".data "https://x.com/".data
          "other/".data).1.2 = [])) := by
  constructor
  · refine ⟨by decide, ?_⟩
    exact (computePaths_split_correct (· ++ ·) "pkg".data "v1".data
      "https://x.com/".data "pkg/v1/".data).1 (by decide)
  · refine ⟨by decide, ?_⟩
    exact (computePaths_split_correct (· ++ ·) "a".data "b".data
      "https://x.com/".data "other/".data).2 (by decide)

/-- **C10.** The two strings returned by `_ComputePaths` always concatenate
to exactly the join of `rootUrl` and `servicePath`, and whenever the
component occurs (in particular when it occurs more than once), the split is
made at its last occurrence: the base is the joined URL up to and including
the occurrence of the component at index `i`, the suffix is the remainder,
and every occurrence index `j` satisfies `j ≤ i`. -/
theorem computePaths_concat_and_last_split
    (join : List Char → List Char → List Char)
    (package version rootUrl servicePath : List Char) :
    (computePaths join package version rootUrl servicePath).1.1 ++
      (computePaths join package version rootUrl servicePath).1.2 =
      join rootUrl servicePath ∧
    (apiComponent package version <:+: join rootUrl servicePath →
      ∃ i, occursAt (apiComponent package version)
          (join rootUrl servicePath) i ∧
        (∀ j, occursAt (apiComponent package version)
          (join rootUrl servicePath) j → j ≤ i) ∧
        (computePaths join package version rootUrl servicePath).1.1 =
          (join rootUrl servicePath).take i ++ apiComponent package version ∧
        (computePaths join package version rootUrl servicePath).1.2 =
          (join rootUrl servicePath).drop
            (i + (apiComponent package version).length)) := by
  have hne := apiComponent_ne_nil package version
  rcases Bool.eq_false_or_eq_true
    (strContains (join rootUrl servicePath)
      (apiComponent package version)) with hc | hc
  · rcases occList_getLast?_isSome_of_contains hc with ⟨i, hlast⟩
    rw [computePaths_of_contains hc hlast]
    have hocc : occursAt (apiComponent package version)
        (join rootUrl servicePath) i :=
      (mem_occList.mp (getLast?_mem_occList hlast)).2
    constructor
    · rw [List.append_assoc] at *
      have := occursAt_decompose hocc
      rwa [List.append_assoc] at this
    · intro _
      exact ⟨i, hocc, fun j hj => getLast_occList_max hne hlast hj,
        rfl, rfl⟩
  · rw [computePaths_of_not_contains hc]
    refine ⟨List.append_nil _, ?_⟩
    intro hin
    exact absurd ((strContains_iff_substring hne).mpr hin)
      (by simp [hc])

/-- **C10 witness.** Concrete instantiation with two occurrences of the
component `a/b/` in the joined URL: the split lands on the second (last)
occurrence, at index 8. -/
theorem computePaths_concat_and_last_split_witness :
    ((computePaths (· ++ ·) "a".data "b".data "http".data
        "a/b/a/b/x".data).1.1 ++
      (computePaths (· ++ ·) "a".data "b".data "http".data
        "a/b/a/b/x".data).1.2 =
      ("http".data ++ "a/b/a/b/x".data)) ∧
    (computePaths (· ++ ·) "a".data "b".data "http".data
      "a/b/a/b/x".data).1.1 = "httpa/b/a/b/".data ∧
    (computePaths (· ++ ·) "a".data "b".data "http".data
      "a/b/a/b/x".data).1.2 = "x".data := by
  refine ⟨(computePaths_concat_and_last_split (· ++ ·) "a".data "b".data
    "http".data "a/b/a/b/x".data).1, by decide, by decide⟩

/-! ## JSON values and Python dictionaries

Discovery documents are parsed JSON; dictionaries are modelled as
association lists (keys are unique in a parsed JSON object).  `dget` models
`d.get(k)` / `d[k]`, `dset` models `d[k] = v` (replace the binding if the
key is present, append otherwise). -/

inductive Json where
  | str : String → Json
  | num : Int → Json
  | bool : Bool → Json
  | null : Json
  | arr : List Json → Json
  | obj : List (String × Json) → Json

/-- Model of Python `d.get(k)` on an association list. -/
def dget {β : Type} (l : List (String × β)) (k : String) : Option β :=
  match l with
  | [] => none
  | (k2, v) :: t => if k2 = k then some v else dget t k

/-- Model of Python `d[k] = v` on an association list. -/
def dset {β : Type} (l : List (String × β)) (k : String) (v : β) :
    List (String × β) :=
  match l with
  | [] => [(k, v)]
  | (k2, v2) :: t => if k2 = k then (k, v) :: t else (k2, v2) :: dset t k v

theorem dget_dset {β : Type} (l : List (String × β)) (k k2 : String) (v : β) :
    dget (dset l k v) k2 = if k2 = k then some v else dget l k2 := by
  induction l with
  | nil =>
    by_cases h : k2 = k
    · simp [dget, dset, h]
    · simp [dget, dset, h, Ne.symm h]
  | cons p t ih =>
    rcases p with ⟨k3, v3⟩
    by_cases h3 : k3 = k
    · subst h3
      by_cases h2 : k2 = k3
      · subst h2
        simp [dget, dset]
      · simp [dget, dset, h2, Ne.symm h2]
    · by_cases h2 : k3 = k2
      · subst h2
        simp [dget, dset, h3, Ne.symm h3]
      · simp [dget, dset, h3, h2, ih]

/-! ## The discovery document

Projection of the JSON mapping onto the keys the two source files consume
(`rootUrl`, `servicePath`, `description`, `parameters`, `schemas`,
`resources`, `methods`); `Option` distinguishes an absent key. -/

structure DiscoveryDoc where
  rootUrl : String
  servicePath : String
  description : Option String
  parameters : Option (List (String × Json))
  schemas : Option (List (String × Json))
  resources : Option (List (String × Json))
  methods : Option (List (String × Json))

/-! ## `_StandardQueryParametersSchema` (gen_client_lib.py lines 19–32)

`base_cli.TRACE_HELP` is an external constant, abstracted as `traceHelp`.
The Python function stores `discovery_doc.get('parameters', {})` — the
document's own dictionary object when the key is present — under
`'properties'` and then assigns into it; this in-place mutation through the
alias is embedded by returning the updated document alongside the schema. -/

/-- The entry assigned to `properties['trace']` on lines 27–31. -/
def traceProperty (traceHelp : Json) : Json :=
  Json.obj [("type", Json.str "string"),
    ("description", traceHelp),
    ("location", Json.str "query")]

/-- Model of `_StandardQueryParametersSchema(discovery_doc)`; returns the
schema together with the document as it stands after the aliased
`properties` dictionary has been mutated. -/
def standardQueryParametersSchema (traceHelp : Json) (doc : DiscoveryDoc) :
    Json × DiscoveryDoc :=
  let props := dset (doc.parameters.getD []) "trace" (traceProperty traceHelp)
  let schema := Json.obj [("id", Json.str "StandardQueryParameters"),
    ("type", Json.str "object"),
    ("description", Json.str "Query parameters accepted by all methods."),
    ("properties", Json.obj props)]
  let doc2 :=
    match doc.parameters with
    | some _ => { doc with parameters := some props }
    | none => doc
  (schema, doc2)

/-- **C2.** For every discovery document, the synthetic
standard-query-parameters schema has id `StandardQueryParameters`, type
`object`, and a properties mapping equal to the document's global
`parameters` mapping (empty when the key is absent) extended with the one
synthesized `trace` property of type string and location `query`, the
synthesized entry replacing any same-named document parameter. -/
theorem standardQuerySchema_correct (traceHelp : Json) (doc : DiscoveryDoc) :
    ∃ props : List (String × Json),
      (standardQueryParametersSchema traceHelp doc).1 =
        Json.obj [("id", Json.str "StandardQueryParameters"),
          ("type", Json.str "object"),
          ("description",
            Json.str "Query parameters accepted by all methods."),
          ("properties", Json.obj props)] ∧
      (∀ k, dget props k =
        if k = "trace" then
          some (Json.obj [("type", Json.str "string"),
            ("description", traceHelp),
            ("location", Json.str "query")])
        else dget (doc.parameters.getD []) k) := by
  refine ⟨dset (doc.parameters.getD []) "trace" (traceProperty traceHelp),
    rfl, ?_⟩
  intro k
  exact dget_dset (doc.parameters.getD []) "trace" k (traceProperty traceHelp)

/-! ## `util.ClientInfo`

Modelled from the spec: `util.ClientInfo` is not under `src/`; per the spec
it is a "derived, immutable record — package, version, url-version, scopes,
base file names for each emitted artifact, default output directory",
created once and replaced (not mutated) when scopes are finalized
(`namedtuple._replace`). Fields are those read by the two source files plus
the spec's list. -/

structure ClientInfo where
  package : String
  version : String
  url_version : String
  scopes : List String
  client_id : String
  client_secret : String
  user_agent : String
  api_key : Option String
  default_directory : String
  client_rule_name : String
  messages_rule_name : String
  messages_file_name : String
  client_file_name : String
  cli_file_name : String

/-! ## Sorting resource names (`sorted(services.iteritems())`, line 101)

Python 2 `sorted` on `(key, value)` pairs compares the string keys
byte-wise first; values are never compared because dictionary keys are
distinct.  Modelled as insertion sort by key under byte-wise (character
code) lexicographic order. -/

/-- Byte-wise lexicographic `≤` on strings as character lists. -/
def lexLe : List Char → List Char → Bool
  | [], _ => true
  | _ :: _, [] => false
  | a :: as, b :: bs =>
    if a < b then true else if b < a then false else lexLe as bs

/-- Key order used by `sorted` on dictionary items. -/
def keyLeb (a b : String) : Bool := lexLe a.data b.data

def insertByKey {β : Type} (x : String × β) :
    List (String × β) → List (String × β)
  | [] => [x]
  | y :: ys => if keyLeb x.1 y.1 then x :: y :: ys else y :: insertByKey x ys

/-- Model of `sorted(d.iteritems())` for a string-keyed dictionary. -/
def sortByKey {β : Type} (l : List (String × β)) : List (String × β) :=
  l.foldr insertByKey []

/-! ## `DescriptorGenerator.__init__` (gen_client_lib.py lines 50–108)

The registries (message, command, service) live outside `src/`; their
internal behaviour is abstracted: registrations are recorded as an event
trace in source order, and the Service Registry's scope union (spec §4.4:
"the union, across all registered methods, of every OAuth scope
referenced") is an abstract function `scopesOf` of the registered
resources. -/

inductive InitEvent where
  | createMessageRegistry
  | addSchema (name : String)
  | createCommandRegistry
  | addGlobalParameters
  | createServiceRegistry
  | addService (name : String)
  | replaceScopes
deriving DecidableEq

/-- The observable result of `DescriptorGenerator.__init__`. -/
structure GenState where
  trace : List InitEvent
  client_info : ClientInfo
  doc : DiscoveryDoc
  servicesAdded : List (String × Json)
  baseUrl : List Char
  basePath : List Char
  description : String

/-- The `(name, resource)` arguments of the `AddServiceFromResource` calls on
lines 101–107: the document's resources sorted by name, then — if the
document has a non-empty top-level `methods` — the synthetic `api`
resource wrapping them. -/
def servicesToAdd (doc : DiscoveryDoc) : List (String × Json) :=
  sortByKey (doc.resources.getD []) ++
    (if (doc.methods.getD []).isEmpty then []
     else [("api", Json.obj [("methods", Json.obj (doc.methods.getD []))])])

/-- Model of `DescriptorGenerator.__init__(discovery_doc, client_info,
names, root_package, outdir, use_proto2)`: computes the base URL/path,
registers every schema, registers the synthetic standard-query-parameters
schema (mutating the document through the `parameters` alias), creates and
seeds the command registry, adds every service, and finally replaces
`client_info` by a copy whose `scopes` is the service registry's union. -/
def descriptorGeneratorInit
    (join : List Char → List Char → List Char)
    (scopesOf : List (String × Json) → List String)
    (traceHelp : Json)
    (doc : DiscoveryDoc) (ci : ClientInfo) : GenState :=
  let desc := doc.description.getD ""
  let paths := computePaths join ci.package.data ci.url_version.data
    doc.rootUrl.data doc.servicePath.data
  let schemas := doc.schemas.getD []
  let stdPair := standardQueryParametersSchema traceHelp doc
  let doc2 := stdPair.2
  let servicesAdded := servicesToAdd doc2
  { trace := [InitEvent.createMessageRegistry] ++
      schemas.map (fun p => InitEvent.addSchema p.1) ++
      [InitEvent.addSchema "StandardQueryParameters"] ++
      [InitEvent.createCommandRegistry, InitEvent.addGlobalParameters,
        InitEvent.createServiceRegistry] ++
      servicesAdded.map (fun p => InitEvent.addService p.1) ++
      [InitEvent.replaceScopes]
    client_info := { ci with scopes := scopesOf servicesAdded }
    doc := doc2
    servicesAdded := servicesAdded
    baseUrl := paths.1.1
    basePath := paths.1.2
    description := desc }

/-- The mutation performed by `_StandardQueryParametersSchema` touches only
the `parameters` field of the document. -/
theorem standardQuerySchema_doc_frame (traceHelp : Json) (doc : DiscoveryDoc) :
    (standardQueryParametersSchema traceHelp doc).2.rootUrl = doc.rootUrl ∧
    (standardQueryParametersSchema traceHelp doc).2.servicePath =
      doc.servicePath ∧
    (standardQueryParametersSchema traceHelp doc).2.description =
      doc.description ∧
    (standardQueryParametersSchema traceHelp doc).2.schemas = doc.schemas ∧
    (standardQueryParametersSchema traceHelp doc).2.resources =
      doc.resources ∧
    (standardQueryParametersSchema traceHelp doc).2.methods = doc.methods := by
  cases hp : doc.parameters <;>
    simp [standardQueryParametersSchema, hp]

/-! ## Index lemmas for event traces -/

theorem mem_of_getElem {α : Type} {l : List α} {i : Nat} {a : α}
    (h : l[i]? = some a) : a ∈ l := by
  rcases List.getElem?_eq_some.mp h with ⟨hlt, hEq⟩
  exact hEq ▸ List.getElem_mem hlt

theorem lt_length_of_getElem {α : Type} {l : List α} {i : Nat} {a : α}
    (h : l[i]? = some a) : i < l.length :=
  (List.getElem?_eq_some.mp h).1

theorem length_le_of_getElem_append {α : Type} {l₁ l₂ : List α} {i : Nat}
    {a : α} (h : (l₁ ++ l₂)[i]? = some a) (hn : a ∉ l₁) : l₁.length ≤ i := by
  by_contra hlt
  push_neg at hlt
  rw [List.getElem?_append_left hlt] at h
  exact hn (mem_of_getElem h)

theorem getElem_append_drop {α : Type} {l₁ l₂ : List α} {i : Nat}
    (h : l₁.length ≤ i) : (l₁ ++ l₂)[i]? = l₂[i - l₁.length]? :=
  List.getElem?_append_right h

theorem getElem_append_cons_length {α : Type} (l₁ : List α) (x : α)
    (l₂ : List α) : (l₁ ++ x :: l₂)[l₁.length]? = some x := by
  rw [List.getElem?_append_right (le_refl _)]
  simp

/-- The registration trace of `DescriptorGenerator.__init__`, in source
order, as a function of the document (right-nested form). -/
def initTrace (doc : DiscoveryDoc) : List InitEvent :=
  InitEvent.createMessageRegistry ::
    ((doc.schemas.getD []).map (fun p => InitEvent.addSchema p.1) ++
      (InitEvent.addSchema "StandardQueryParameters" ::
        InitEvent.createCommandRegistry ::
        InitEvent.addGlobalParameters ::
        InitEvent.createServiceRegistry ::
          ((servicesToAdd doc).map (fun p => InitEvent.addService p.1) ++
            [InitEvent.replaceScopes])))

/-- `servicesToAdd` reads `resources` and `methods`, which the
standard-query-parameters mutation does not touch. -/
theorem servicesToAdd_after_mutation (traceHelp : Json) (doc : DiscoveryDoc) :
    servicesToAdd (standardQueryParametersSchema traceHelp doc).2 =
      servicesToAdd doc := by
  rcases standardQuerySchema_doc_frame traceHelp doc with
    ⟨_, _, _, _, hr, hm⟩
  unfold servicesToAdd
  rw [hr, hm]

theorem genState_trace_eq (join : List Char → List Char → List Char)
    (scopesOf : List (String × Json) → List String)
    (traceHelp : Json) (doc : DiscoveryDoc) (ci : ClientInfo) :
    (descriptorGeneratorInit join scopesOf traceHelp doc ci).trace =
      initTrace doc := by
  simp [descriptorGeneratorInit, initTrace,
    servicesToAdd_after_mutation, List.append_assoc]

theorem genState_servicesAdded_eq (join : List Char → List Char → List Char)
    (scopesOf : List (String × Json) → List String)
    (traceHelp : Json) (doc : DiscoveryDoc) (ci : ClientInfo) :
    (descriptorGeneratorInit join scopesOf traceHelp doc ci).servicesAdded =
      servicesToAdd doc := by
  simp [descriptorGeneratorInit, servicesToAdd_after_mutation]

theorem initTrace_length (doc : DiscoveryDoc) :
    (initTrace doc).length =
      (doc.schemas.getD []).length + (servicesToAdd doc).length + 6 := by
  simp [initTrace]
  omega

theorem initTrace_sqp_at (doc : DiscoveryDoc) :
    (initTrace doc)[(doc.schemas.getD []).length + 1]? =
      some (InitEvent.addSchema "StandardQueryParameters") := by
  show (InitEvent.createMessageRegistry :: _)[(doc.schemas.getD []).length + 1]? = _
  rw [List.getElem?_cons_succ]
  rw [getElem_append_drop (by simp)]
  simp

theorem initTrace_addService_ge (doc : DiscoveryDoc) {i : Nat} {s : String}
    (h : (initTrace doc)[i]? = some (InitEvent.addService s)) :
    (doc.schemas.getD []).length + 5 ≤ i := by
  have hdec : initTrace doc =
      (InitEvent.createMessageRegistry ::
        ((doc.schemas.getD []).map (fun p => InitEvent.addSchema p.1) ++
          [InitEvent.addSchema "StandardQueryParameters",
            InitEvent.createCommandRegistry, InitEvent.addGlobalParameters,
            InitEvent.createServiceRegistry])) ++
      ((servicesToAdd doc).map (fun p => InitEvent.addService p.1) ++
        [InitEvent.replaceScopes]) := by
    simp [initTrace]
  rw [hdec] at h
  have hlen := length_le_of_getElem_append h (by simp)
  simp at hlen
  omega

theorem initTrace_addSchema_le (doc : DiscoveryDoc) {i : Nat} {n : String}
    (h : (initTrace doc)[i]? = some (InitEvent.addSchema n)) :
    i ≤ (doc.schemas.getD []).length + 1 := by
  by_contra hgt
  push_neg at hgt
  have hdec : initTrace doc =
      (InitEvent.createMessageRegistry ::
        ((doc.schemas.getD []).map (fun p => InitEvent.addSchema p.1) ++
          [InitEvent.addSchema "StandardQueryParameters"])) ++
      (InitEvent.createCommandRegistry :: InitEvent.addGlobalParameters ::
        InitEvent.createServiceRegistry ::
          ((servicesToAdd doc).map (fun p => InitEvent.addService p.1) ++
            [InitEvent.replaceScopes])) := by
    simp [initTrace]
  rw [hdec] at h
  rw [getElem_append_drop (by simp; omega)] at h
  exact absurd (mem_of_getElem h) (by simp)

theorem initTrace_ccr_eq (doc : DiscoveryDoc) {i : Nat}
    (h : (initTrace doc)[i]? = some InitEvent.createCommandRegistry) :
    i = (doc.schemas.getD []).length + 2 := by
  have hdec : initTrace doc =
      (InitEvent.createMessageRegistry ::
        ((doc.schemas.getD []).map (fun p => InitEvent.addSchema p.1) ++
          [InitEvent.addSchema "StandardQueryParameters"])) ++
      (InitEvent.createCommandRegistry :: InitEvent.addGlobalParameters ::
        InitEvent.createServiceRegistry ::
          ((servicesToAdd doc).map (fun p => InitEvent.addService p.1) ++
            [InitEvent.replaceScopes])) := by
    simp [initTrace]
  rw [hdec] at h
  have hge := length_le_of_getElem_append h (by simp)
  simp at hge
  have hge2 : (doc.schemas.getD []).length + 2 ≤ i := by omega
  rw [getElem_append_drop (by simp; omega)] at h
  rcases Nat.eq_zero_or_pos
    (i - (InitEvent.createMessageRegistry ::
      ((doc.schemas.getD []).map (fun p => InitEvent.addSchema p.1) ++
        [InitEvent.addSchema "StandardQueryParameters"])).length) with h0 | hpos
  · simp at h0
    omega
  · obtain ⟨k, hk⟩ : ∃ k,
        i - (InitEvent.createMessageRegistry ::
          ((doc.schemas.getD []).map (fun p => InitEvent.addSchema p.1) ++
            [InitEvent.addSchema "StandardQueryParameters"])).length = k + 1 :=
      ⟨_, (Nat.succ_pred_eq_of_pos hpos).symm⟩
    rw [hk, List.getElem?_cons_succ] at h
    exact absurd (mem_of_getElem h) (by simp)

theorem initTrace_agp_at (doc : DiscoveryDoc) :
    (initTrace doc)[(doc.schemas.getD []).length + 3]? =
      some InitEvent.addGlobalParameters := by
  have hdec : initTrace doc =
      (InitEvent.createMessageRegistry ::
        ((doc.schemas.getD []).map (fun p => InitEvent.addSchema p.1) ++
          [InitEvent.addSchema "StandardQueryParameters",
            InitEvent.createCommandRegistry])) ++
      (InitEvent.addGlobalParameters :: InitEvent.createServiceRegistry ::
        ((servicesToAdd doc).map (fun p => InitEvent.addService p.1) ++
          [InitEvent.replaceScopes])) := by
    simp [initTrace]
  have h1 := getElem_append_cons_length
    (InitEvent.createMessageRegistry ::
      ((doc.schemas.getD []).map (fun p => InitEvent.addSchema p.1) ++
        [InitEvent.addSchema "StandardQueryParameters",
          InitEvent.createCommandRegistry]))
    InitEvent.addGlobalParameters
    (InitEvent.createServiceRegistry ::
      ((servicesToAdd doc).map (fun p => InitEvent.addService p.1) ++
        [InitEvent.replaceScopes]))
  rw [← hdec] at h1
  have hlen : (InitEvent.createMessageRegistry ::
      ((doc.schemas.getD []).map (fun p => InitEvent.addSchema p.1) ++
        [InitEvent.addSchema "StandardQueryParameters",
          InitEvent.createCommandRegistry])).length =
      (doc.schemas.getD []).length + 3 := by
    simp
  rwa [hlen] at h1

theorem initTrace_rs_at (doc : DiscoveryDoc) :
    (initTrace doc)[(doc.schemas.getD []).length + 5 +
      (servicesToAdd doc).length]? = some InitEvent.replaceScopes := by
  have hdec : initTrace doc =
      (InitEvent.createMessageRegistry ::
        ((doc.schemas.getD []).map (fun p => InitEvent.addSchema p.1) ++
          ([InitEvent.addSchema "StandardQueryParameters",
            InitEvent.createCommandRegistry, InitEvent.addGlobalParameters,
            InitEvent.createServiceRegistry] ++
            (servicesToAdd doc).map (fun p => InitEvent.addService p.1)))) ++
      [InitEvent.replaceScopes] := by
    simp [initTrace]
  have h1 := getElem_append_cons_length
    (InitEvent.createMessageRegistry ::
      ((doc.schemas.getD []).map (fun p => InitEvent.addSchema p.1) ++
        ([InitEvent.addSchema "StandardQueryParameters",
          InitEvent.createCommandRegistry, InitEvent.addGlobalParameters,
          InitEvent.createServiceRegistry] ++
          (servicesToAdd doc).map (fun p => InitEvent.addService p.1))))
    InitEvent.replaceScopes []
  rw [← hdec] at h1
  have hlen : (InitEvent.createMessageRegistry ::
      ((doc.schemas.getD []).map (fun p => InitEvent.addSchema p.1) ++
        ([InitEvent.addSchema "StandardQueryParameters",
          InitEvent.createCommandRegistry, InitEvent.addGlobalParameters,
          InitEvent.createServiceRegistry] ++
          (servicesToAdd doc).map (fun p => InitEvent.addService p.1)))).length =
      (doc.schemas.getD []).length + 5 + (servicesToAdd doc).length := by
    simp
    omega
  rwa [hlen] at h1

theorem initTrace_getLast (doc : DiscoveryDoc) :
    (initTrace doc).getLast? = some InitEvent.replaceScopes := by
  have hdec : initTrace doc =
      (InitEvent.createMessageRegistry ::
        ((doc.schemas.getD []).map (fun p => InitEvent.addSchema p.1) ++
          ([InitEvent.addSchema "StandardQueryParameters",
            InitEvent.createCommandRegistry, InitEvent.addGlobalParameters,
            InitEvent.createServiceRegistry] ++
            (servicesToAdd doc).map (fun p => InitEvent.addService p.1)))) ++
      [InitEvent.replaceScopes] := by
    simp [initTrace]
  rw [hdec]
  exact List.getLast?_concat _

theorem initTrace_addService_lt (doc : DiscoveryDoc) {i : Nat} {s : String}
    (h : (initTrace doc)[i]? = some (InitEvent.addService s)) :
    i < (doc.schemas.getD []).length + 5 + (servicesToAdd doc).length := by
  have hlt := lt_length_of_getElem h
  rw [initTrace_length] at hlt
  have hne : i ≠ (doc.schemas.getD []).length + 5 + (servicesToAdd doc).length := by
    intro hEq
    rw [hEq, initTrace_rs_at doc] at h
    simp at h
  omega

theorem initTrace_count_rs (doc : DiscoveryDoc) :
    (initTrace doc).count InitEvent.replaceScopes = 1 := by
  have hdec : initTrace doc =
      (InitEvent.createMessageRegistry ::
        ((doc.schemas.getD []).map (fun p => InitEvent.addSchema p.1) ++
          ([InitEvent.addSchema "StandardQueryParameters",
            InitEvent.createCommandRegistry, InitEvent.addGlobalParameters,
            InitEvent.createServiceRegistry] ++
            (servicesToAdd doc).map (fun p => InitEvent.addService p.1)))) ++
      [InitEvent.replaceScopes] := by
    simp [initTrace]
  rw [hdec, List.count_append]
  have h0 : (InitEvent.createMessageRegistry ::
      ((doc.schemas.getD []).map (fun p => InitEvent.addSchema p.1) ++
        ([InitEvent.addSchema "StandardQueryParameters",
          InitEvent.createCommandRegistry, InitEvent.addGlobalParameters,
          InitEvent.createServiceRegistry] ++
          (servicesToAdd doc).map
            (fun p => InitEvent.addService p.1)))).count
      InitEvent.replaceScopes = 0 :=
    List.count_eq_zero.mpr (by simp)
  rw [h0]
  simp

theorem initTrace_addSchema_mem (doc : DiscoveryDoc) {n : String}
    (hn : n ∈ (doc.schemas.getD []).map Prod.fst) :
    InitEvent.addSchema n ∈ initTrace doc := by
  rcases List.mem_map.mp hn with ⟨p, hp, rfl⟩
  have hmem : InitEvent.addSchema p.1 ∈
      (doc.schemas.getD []).map (fun q => InitEvent.addSchema q.1) :=
    List.mem_map.mpr ⟨p, hp, rfl⟩
  simp only [initTrace, List.mem_cons, List.mem_append]
  exact Or.inr (Or.inl hmem)

/-! ## Concrete inputs used by witnesses -/

def joinW : List Char → List Char → List Char := fun a b => a ++ b

def scopesW : List (String × Json) → List String := fun _ => []

def ciW : ClientInfo :=
  { package := "pkg"
    version := "v1"
    url_version := "v1"
    scopes := []
    client_id := "ident"
    client_secret := "secret"
    user_agent := "ua"
    api_key := none
    default_directory := "outdirpkg"
    client_rule_name := "pkg_v1_client"
    messages_rule_name := "pkg_v1_messages"
    messages_file_name := "pkg_v1_messages.py"
    client_file_name := "pkg_v1_client.py"
    cli_file_name := "pkg_v1.py" }

def docW : DiscoveryDoc :=
  { rootUrl := "https://x.com/"
    servicePath := "pkg/v1/"
    description := some "d"
    parameters := some [("fields", Json.obj [("location", Json.str "query")])]
    schemas := some [("Foo", Json.obj [("id", Json.str "Foo")])]
    resources := some [("b", Json.null), ("a", Json.null)]
    methods := some [("get", Json.null)] }

/-- **C3.** During `DescriptorGenerator` construction the operations occur
in the fixed source order: the trace is `initTrace doc`; every schema of the
document is registered; every schema-registration index is at most the index
of the `StandardQueryParameters` registration (which sits right after the
document's schemas); the command registry is created after the
`StandardQueryParameters` registration and before any service, immediately
followed by the global-parameters seeding; every service-registration index
is preceded by the `StandardQueryParameters` registration; and the scopes
replacement is the last event, after every service. -/
theorem initOrder_correct (join : List Char → List Char → List Char)
    (scopesOf : List (String × Json) → List String)
    (traceHelp : Json) (doc : DiscoveryDoc) (ci : ClientInfo) :
    (descriptorGeneratorInit join scopesOf traceHelp doc ci).trace =
      initTrace doc ∧
    (∀ n : String, n ∈ (doc.schemas.getD []).map Prod.fst →
      InitEvent.addSchema n ∈ initTrace doc) ∧
    (initTrace doc)[(doc.schemas.getD []).length + 1]? =
      some (InitEvent.addSchema "StandardQueryParameters") ∧
    (∀ (i : Nat) (n : String),
      (initTrace doc)[i]? = some (InitEvent.addSchema n) →
      i ≤ (doc.schemas.getD []).length + 1) ∧
    (∀ i : Nat, (initTrace doc)[i]? = some InitEvent.createCommandRegistry →
      (doc.schemas.getD []).length + 1 < i ∧
      (initTrace doc)[i + 1]? = some InitEvent.addGlobalParameters ∧
      (∀ (j : Nat) (s : String),
        (initTrace doc)[j]? = some (InitEvent.addService s) → i < j)) ∧
    (∀ (i : Nat) (s : String),
      (initTrace doc)[i]? = some (InitEvent.addService s) →
      ∃ j : Nat, j < i ∧ (initTrace doc)[j]? =
        some (InitEvent.addSchema "StandardQueryParameters")) ∧
    (initTrace doc).getLast? = some InitEvent.replaceScopes ∧
    (∀ (i : Nat) (s : String),
      (initTrace doc)[i]? = some (InitEvent.addService s) →
      ∃ j : Nat, i < j ∧
        (initTrace doc)[j]? = some InitEvent.replaceScopes) := by
  refine ⟨genState_trace_eq join scopesOf traceHelp doc ci,
    fun n hn => initTrace_addSchema_mem doc hn,
    initTrace_sqp_at doc,
    fun i n h => initTrace_addSchema_le doc h,
    ?_, ?_, initTrace_getLast doc, ?_⟩
  · intro i h
    have hEq := initTrace_ccr_eq doc h
    subst hEq
    refine ⟨by omega, initTrace_agp_at doc, ?_⟩
    intro j s hj
    have := initTrace_addService_ge doc hj
    omega
  · intro i s h
    have hge := initTrace_addService_ge doc h
    exact ⟨(doc.schemas.getD []).length + 1, by omega, initTrace_sqp_at doc⟩
  · intro i s h
    have hlt := initTrace_addService_lt doc h
    exact ⟨(doc.schemas.getD []).length + 5 + (servicesToAdd doc).length,
      hlt, initTrace_rs_at doc⟩

/-- **C3 witness.** At the concrete document `docW` (one schema, two
resources, one top-level method), position 6 holds `addService "a"` and the
`StandardQueryParameters` registration indeed occurs strictly earlier. -/
theorem initOrder_correct_witness :
    (initTrace docW)[6]? = some (InitEvent.addService "a") ∧
    ∃ j : Nat, j < 6 ∧ (initTrace docW)[j]? =
      some (InitEvent.addSchema "StandardQueryParameters") := by
  refine ⟨by decide, ?_⟩
  exact (initOrder_correct joinW scopesW Json.null docW ciW).2.2.2.2.2.1
    6 "a" (by decide)

/-- **C4.** At the end of construction the client info equals the input
client info with only `scopes` replaced by the Service Registry's computed
union (`scopesOf` applied to the registered resources); each of the other
thirteen fields is unchanged; the replacement event occurs exactly once, is
the last event of the trace, and follows every service registration. -/
theorem clientInfo_scopes_replaced_once
    (join : List Char → List Char → List Char)
    (scopesOf : List (String × Json) → List String)
    (traceHelp : Json) (doc : DiscoveryDoc) (ci : ClientInfo) :
    (descriptorGeneratorInit join scopesOf traceHelp doc ci).client_info =
      { ci with scopes := scopesOf ((descriptorGeneratorInit join scopesOf traceHelp doc ci).servicesAdded) } ∧
    (descriptorGeneratorInit join scopesOf traceHelp doc
      ci).client_info.scopes =
      scopesOf ((descriptorGeneratorInit join scopesOf traceHelp doc
        ci).servicesAdded) ∧
    (descriptorGeneratorInit join scopesOf traceHelp doc
      ci).client_info.package = ci.package ∧
    (descriptorGeneratorInit join scopesOf traceHelp doc
      ci).client_info.version = ci.version ∧
    (descriptorGeneratorInit join scopesOf traceHelp doc
      ci).client_info.url_version = ci.url_version ∧
    (descriptorGeneratorInit join scopesOf traceHelp doc
      ci).client_info.client_id = ci.client_id ∧
    (descriptorGeneratorInit join scopesOf traceHelp doc
      ci).client_info.client_secret = ci.client_secret ∧
    (descriptorGeneratorInit join scopesOf traceHelp doc
      ci).client_info.user_agent = ci.user_agent ∧
    (descriptorGeneratorInit join scopesOf traceHelp doc
      ci).client_info.api_key = ci.api_key ∧
    (descriptorGeneratorInit join scopesOf traceHelp doc
      ci).client_info.default_directory = ci.default_directory ∧
    (descriptorGeneratorInit join scopesOf traceHelp doc
      ci).client_info.client_rule_name = ci.client_rule_name ∧
    (descriptorGeneratorInit join scopesOf traceHelp doc
      ci).client_info.messages_rule_name = ci.messages_rule_name ∧
    (descriptorGeneratorInit join scopesOf traceHelp doc
      ci).client_info.messages_file_name = ci.messages_file_name ∧
    (descriptorGeneratorInit join scopesOf traceHelp doc
      ci).client_info.client_file_name = ci.client_file_name ∧
    (descriptorGeneratorInit join scopesOf traceHelp doc
      ci).client_info.cli_file_name = ci.cli_file_name ∧
    (descriptorGeneratorInit join scopesOf traceHelp doc ci).trace.count
      InitEvent.replaceScopes = 1 ∧
    (descriptorGeneratorInit join scopesOf traceHelp doc
      ci).trace.getLast? = some InitEvent.replaceScopes ∧
    (∀ (i : Nat) (s : String), (descriptorGeneratorInit join scopesOf
        traceHelp doc ci).trace[i]? = some (InitEvent.addService s) →
      ∃ j : Nat, i < j ∧ (descriptorGeneratorInit join scopesOf traceHelp
        doc ci).trace[j]? = some InitEvent.replaceScopes) := by
  refine ⟨rfl, rfl, rfl, rfl, rfl, rfl, rfl, rfl, rfl, rfl, rfl, rfl, rfl,
    rfl, rfl, ?_, ?_, ?_⟩
  · rw [genState_trace_eq]
    exact initTrace_count_rs doc
  · rw [genState_trace_eq]
    exact initTrace_getLast doc
  · intro i s h
    rw [genState_trace_eq] at h
    have hlt := initTrace_addService_lt doc h
    rw [genState_trace_eq]
    exact ⟨(doc.schemas.getD []).length + 5 + (servicesToAdd doc).length,
      hlt, initTrace_rs_at doc⟩

/-- **C4 witness.** At the concrete inputs, the service registered at
position 6 is followed by the (final) scopes replacement. -/
theorem clientInfo_scopes_replaced_once_witness :
    (descriptorGeneratorInit joinW scopesW Json.null docW
      ciW).trace[6]? = some (InitEvent.addService "a") ∧
    ∃ j : Nat, 6 < j ∧ (descriptorGeneratorInit joinW scopesW Json.null
      docW ciW).trace[j]? = some InitEvent.replaceScopes := by
  refine ⟨by decide, ?_⟩
  exact (clientInfo_scopes_replaced_once joinW scopesW Json.null docW
    ciW).2.2.2.2.2.2.2.2.2.2.2.2.2.2.2.2.2 6 "a" (by decide)

/-- **C6.** The generator registers the synthetic `api` service wrapping the
document's top-level `methods` exactly when that entry is present and
non-empty, and registers it after all explicit resources (which are sorted
by name); when `methods` is absent or empty, only the explicit resources are
registered. -/
theorem syntheticApiService_correct
    (join : List Char → List Char → List Char)
    (scopesOf : List (String × Json) → List String)
    (traceHelp : Json) (doc : DiscoveryDoc) (ci : ClientInfo) :
    ((doc.methods.getD []) ≠ [] →
      (descriptorGeneratorInit join scopesOf traceHelp doc
        ci).servicesAdded =
        sortByKey (doc.resources.getD []) ++
          [("api", Json.obj [("methods",
            Json.obj (doc.methods.getD []))])]) ∧
    ((doc.methods.getD []) = [] →
      (descriptorGeneratorInit join scopesOf traceHelp doc
        ci).servicesAdded = sortByKey (doc.resources.getD [])) := by
  rw [genState_servicesAdded_eq]
  constructor
  · intro h
    have hEmpty : (doc.methods.getD []).isEmpty = false := by
      simpa using h
    simp [servicesToAdd, hEmpty]
  · intro h
    simp [servicesToAdd, h]

/-- **C6 witness.** `docW` has a non-empty top-level `methods`, and its
service list is the two sorted resources followed by the synthetic `api`
entry. -/
theorem syntheticApiService_correct_witness :
    (docW.methods.getD []) ≠ [] ∧
    (descriptorGeneratorInit joinW scopesW Json.null docW
      ciW).servicesAdded =
      sortByKey (docW.resources.getD []) ++
        [("api", Json.obj [("methods",
          Json.obj (docW.methods.getD []))])] := by
  refine ⟨by simp [docW], ?_⟩
  exact (syntheticApiService_correct joinW scopesW Json.null docW ciW).1
    (by simp [docW])

/-- The document used to exhibit the in-place mutation of `parameters`:
it carries an (empty) global `parameters` mapping. -/
def docMut : DiscoveryDoc :=
  { rootUrl := "https://x.com/"
    servicePath := "pkg/v1/"
    description := none
    parameters := some []
    schemas := none
    resources := none
    methods := none }

/-- **C7.** The pipeline does *not* leave every discovery document
unchanged: `_StandardQueryParametersSchema` assigns the synthesized `trace`
entry into the document's own `parameters` dictionary through the alias
stored under `properties`, so after construction on `docMut` (whose
`parameters` is present and empty) the document's `parameters` contains the
`trace` entry and the document differs from the one passed in. -/
theorem generator_mutates_document :
    (descriptorGeneratorInit joinW scopesW Json.null docMut
      ciW).doc.parameters =
      some [("trace", traceProperty Json.null)] ∧
    (descriptorGeneratorInit joinW scopesW Json.null docMut ciW).doc ≠
      docMut := by
  refine ⟨rfl, ?_⟩
  intro h
  have h2 := congrArg DiscoveryDoc.parameters h
  have h3 : (some [(("trace" : String), traceProperty Json.null)] :
      Option (List (String × Json))) = some [] := by
    calc (some [(("trace" : String), traceProperty Json.null)] :
        Option (List (String × Json))) =
        (descriptorGeneratorInit joinW scopesW Json.null docMut
          ciW).doc.parameters := rfl
      _ = docMut.parameters := h2
      _ = some [] := rfl
  simp at h3

/-! ## Order theory of the byte-wise key order (for claim C5) -/

theorem lexLe_cons_iff {a b : Char} {as bs : List Char} :
    lexLe (a :: as) (b :: bs) = true ↔
      a < b ∨ (a = b ∧ lexLe as bs = true) := by
  show (if a < b then true else if b < a then false else lexLe as bs) =
    true ↔ a < b ∨ (a = b ∧ lexLe as bs = true)
  split_ifs with h1 h2
  · simp [h1]
  · have hne : a ≠ b := ne_of_gt h2
    simp [h1, hne]
  · have hab : a = b := le_antisymm (not_lt.mp h2) (not_lt.mp h1)
    simp [h1, hab]

theorem lexLe_refl : ∀ a : List Char, lexLe a a = true := by
  intro a
  induction a with
  | nil => rfl
  | cons x xs ih => exact lexLe_cons_iff.mpr (Or.inr ⟨rfl, ih⟩)

theorem lexLe_total : ∀ a b : List Char, lexLe a b = true ∨ lexLe b a = true := by
  intro a
  induction a with
  | nil => intro b; exact Or.inl rfl
  | cons x xs ih =>
    intro b
    cases b with
    | nil => exact Or.inr rfl
    | cons y ys =>
      rcases lt_trichotomy x y with h | h | h
      · exact Or.inl (lexLe_cons_iff.mpr (Or.inl h))
      · subst h
        rcases ih ys with h2 | h2
        · exact Or.inl (lexLe_cons_iff.mpr (Or.inr ⟨rfl, h2⟩))
        · exact Or.inr (lexLe_cons_iff.mpr (Or.inr ⟨rfl, h2⟩))
      · exact Or.inr (lexLe_cons_iff.mpr (Or.inl h))

theorem lexLe_antisymm : ∀ a b : List Char,
    lexLe a b = true → lexLe b a = true → a = b := by
  intro a
  induction a with
  | nil =>
    intro b _ h2
    cases b with
    | nil => rfl
    | cons y ys => exact absurd h2 (by simp [lexLe])
  | cons x xs ih =>
    intro b h1 h2
    cases b with
    | nil => exact absurd h1 (by simp [lexLe])
    | cons y ys =>
      rcases lexLe_cons_iff.mp h1 with h | ⟨rfl, hrec1⟩
      · rcases lexLe_cons_iff.mp h2 with h2b | ⟨hEq, _⟩
        · exact absurd h2b (lt_asymm h)
        · exact absurd h (by rw [hEq]; exact lt_irrefl x)
      · rcases lexLe_cons_iff.mp h2 with h2b | ⟨_, hrec2⟩
        · exact absurd h2b (lt_irrefl x)
        · rw [ih ys hrec1 hrec2]

theorem lexLe_trans : ∀ a b c : List Char,
    lexLe a b = true → lexLe b c = true → lexLe a c = true := by
  intro a
  induction a with
  | nil => intro b c _ _; rfl
  | cons x xs ih =>
    intro b c h1 h2
    cases b with
    | nil => exact absurd h1 (by simp [lexLe])
    | cons y ys =>
      cases c with
      | nil => exact absurd h2 (by simp [lexLe])
      | cons z zs =>
        rcases lexLe_cons_iff.mp h1 with hxy | ⟨rfl, hr1⟩
        · rcases lexLe_cons_iff.mp h2 with hyz | ⟨rfl, _⟩
          · exact lexLe_cons_iff.mpr (Or.inl (lt_trans hxy hyz))
          · exact lexLe_cons_iff.mpr (Or.inl hxy)
        · rcases lexLe_cons_iff.mp h2 with hyz | ⟨rfl, hr2⟩
          · exact lexLe_cons_iff.mpr (Or.inl hyz)
          · exact lexLe_cons_iff.mpr (Or.inr ⟨rfl, ih ys zs hr1 hr2⟩)

theorem keyLeb_total (a b : String) :
    keyLeb a b = true ∨ keyLeb b a = true :=
  lexLe_total a.data b.data

theorem keyLeb_trans {a b c : String} (h1 : keyLeb a b = true)
    (h2 : keyLeb b c = true) : keyLeb a c = true :=
  lexLe_trans a.data b.data c.data h1 h2

theorem keyLeb_antisymm {a b : String} (h1 : keyLeb a b = true)
    (h2 : keyLeb b a = true) : a = b := by
  rcases a with ⟨da⟩
  rcases b with ⟨db⟩
  have := lexLe_antisymm da db h1 h2
  rw [this]

/-! ## Permutation invariance of `sortByKey` -/

/-- The keys of a dictionary are distinct. -/
def keysNodup {β : Type} (l : List (String × β)) : Prop :=
  (l.map Prod.fst).Nodup

theorem insertByKey_perm {β : Type} (x : String × β)
    (l : List (String × β)) : List.Perm (insertByKey x l) (x :: l) := by
  induction l with
  | nil => exact List.Perm.refl _
  | cons y ys ih =>
    by_cases h : keyLeb x.1 y.1 = true
    · rw [insertByKey, if_pos h]
    · rw [insertByKey, if_neg h]
      exact (ih.cons y).trans (List.Perm.swap x y ys)

theorem sortByKey_perm {β : Type} (l : List (String × β)) :
    List.Perm (sortByKey l) l := by
  induction l with
  | nil => exact List.Perm.refl _
  | cons x xs ih =>
    show List.Perm (insertByKey x (sortByKey xs)) (x :: xs)
    exact (insertByKey_perm x (sortByKey xs)).trans (ih.cons x)

theorem pairwise_insertByKey {β : Type} {x : String × β}
    {l : List (String × β)}
    (hl : l.Pairwise (fun a b => keyLeb a.1 b.1 = true)) :
    (insertByKey x l).Pairwise (fun a b => keyLeb a.1 b.1 = true) := by
  induction l with
  | nil => simp [insertByKey]
  | cons y ys ih =>
    rcases List.pairwise_cons.mp hl with ⟨hy, hys⟩
    by_cases hxy : keyLeb x.1 y.1 = true
    · rw [insertByKey, if_pos hxy]
      refine List.pairwise_cons.mpr ⟨?_, hl⟩
      intro z hz
      rcases List.mem_cons.mp hz with rfl | hz2
      · exact hxy
      · exact keyLeb_trans hxy (hy z hz2)
    · rw [insertByKey, if_neg hxy]
      refine List.pairwise_cons.mpr ⟨?_, ih hys⟩
      intro z hz
      rcases List.mem_cons.mp
        ((insertByKey_perm x ys).mem_iff.mp hz) with rfl | hz2
      · rcases keyLeb_total z.1 y.1 with h | h
        · exact absurd h hxy
        · exact h
      · exact hy z hz2

theorem sortByKey_pairwise {β : Type} (l : List (String × β)) :
    (sortByKey l).Pairwise (fun a b => keyLeb a.1 b.1 = true) := by
  induction l with
  | nil => simp [sortByKey]
  | cons x xs ih => exact pairwise_insertByKey ih

theorem keysNodup_of_perm {β : Type} {l₁ l₂ : List (String × β)}
    (hp : List.Perm l₁ l₂) (hn : keysNodup l₁) : keysNodup l₂ :=
  ((hp.map Prod.fst).nodup_iff).mp hn

/-- On dictionaries (distinct keys), sorting by key is a function of the
contents alone: two permutations of the same bindings sort identically. -/
theorem sortByKey_eq_of_perm {β : Type} {l₁ l₂ : List (String × β)}
    (hp : List.Perm l₁ l₂) (hn : keysNodup l₁) :
    sortByKey l₁ = sortByKey l₂ := by
  have hperm : List.Perm (sortByKey l₁) (sortByKey l₂) :=
    (sortByKey_perm l₁).trans (hp.trans (sortByKey_perm l₂).symm)
  have hn₂ : keysNodup l₂ := keysNodup_of_perm hp hn
  have hns₁ : keysNodup (sortByKey l₁) :=
    keysNodup_of_perm (sortByKey_perm l₁).symm hn
  have hns₂ : keysNodup (sortByKey l₂) :=
    keysNodup_of_perm (sortByKey_perm l₂).symm hn₂
  have hstrict : ∀ (l : List (String × β)), keysNodup l →
      l.Pairwise (fun a b => keyLeb a.1 b.1 = true) →
      l.Pairwise (fun a b => keyLeb a.1 b.1 = true ∧ a.1 ≠ b.1) := by
    intro l hnl hsl
    have hne : l.Pairwise (fun a b : String × β => a.1 ≠ b.1) :=
      List.pairwise_map.mp hnl
    exact hsl.and hne
  haveI : IsAntisymm (String × β)
      (fun a b => keyLeb a.1 b.1 = true ∧ a.1 ≠ b.1) :=
    ⟨fun a b h1 h2 => absurd (keyLeb_antisymm h1.1 h2.1) h1.2⟩
  exact List.eq_of_perm_of_sorted hperm
    (hstrict _ hns₁ (sortByKey_pairwise l₁))
    (hstrict _ hns₂ (sortByKey_pairwise l₂))

/-! ## Claim C5: determinism / independence from dictionary iteration order -/

/-- Modelled from the spec: the Name Resolver (spec §4.1, not under `src/`)
maps a raw discovery identifier to a resolved identifier as a pure function
of the identifier and the configured convention (`resolve`); the name
assignment built during construction associates each registered schema name
(the document's schemas in registration order, then the synthetic
`StandardQueryParameters`) with its resolved name. -/
def nameAssignments (resolve : String → String) (doc : DiscoveryDoc) :
    List (String × String) :=
  ((doc.schemas.getD []).map Prod.fst ++ ["StandardQueryParameters"]).map
    (fun n => (n, resolve n))

/-- A lookup in a key-to-`f key` table depends only on key membership. -/
theorem dget_map_resolve (resolve : String → String) (keys : List String)
    (k : String) :
    dget (keys.map (fun n => (n, resolve n))) k =
      if k ∈ keys then some (resolve k) else none := by
  induction keys with
  | nil => simp [dget]
  | cons n t ih =>
    by_cases h : n = k
    · subst h
      simp [dget]
    · rw [List.map_cons]
      show dget ((n, resolve n) :: t.map (fun n => (n, resolve n))) k = _
      rw [dget, if_neg h, ih]
      have h3 : k ∈ n :: t ↔ k ∈ t := by
        simp [List.mem_cons, Ne.symm h]
      by_cases hkt : k ∈ t
      · rw [if_pos hkt, if_pos (h3.mpr hkt)]
      · rw [if_neg hkt, if_neg (fun hc => hkt (h3.mp hc))]

/-- **C5.** Pipeline construction is deterministic and independent of the
(unordered) dictionary iteration order: re-running on the identical document
yields the identical state, and for two representations of the same
document — equal fields, with the `schemas` and `resources` association
lists permuted (distinct keys, as in a parsed JSON object) — the resolved
name assignment is identical as a mapping, and the registered service list
(hence the processing order and every method path template derived from it
and from the equal base path) is byte-identical, resource names being
sorted before processing. -/
theorem pipeline_deterministic
    (join : List Char → List Char → List Char)
    (scopesOf : List (String × Json) → List String)
    (traceHelp : Json) (resolve : String → String) (ci : ClientInfo)
    (d₁ d₂ : DiscoveryDoc)
    (hroot : d₁.rootUrl = d₂.rootUrl)
    (hsp : d₁.servicePath = d₂.servicePath)
    (hdesc : d₁.description = d₂.description)
    (hpar : d₁.parameters = d₂.parameters)
    (hmeth : d₁.methods = d₂.methods)
    (hs : List.Perm (d₁.schemas.getD []) (d₂.schemas.getD []))
    (hr : List.Perm (d₁.resources.getD []) (d₂.resources.getD []))
    (hrn : keysNodup (d₁.resources.getD [])) :
    descriptorGeneratorInit join scopesOf traceHelp d₁ ci =
      descriptorGeneratorInit join scopesOf traceHelp d₁ ci ∧
    (∀ k : String, dget (nameAssignments resolve d₁) k =
      dget (nameAssignments resolve d₂) k) ∧
    (descriptorGeneratorInit join scopesOf traceHelp d₁ ci).servicesAdded =
      (descriptorGeneratorInit join scopesOf traceHelp d₂ ci).servicesAdded ∧
    (descriptorGeneratorInit join scopesOf traceHelp d₁ ci).baseUrl =
      (descriptorGeneratorInit join scopesOf traceHelp d₂ ci).baseUrl ∧
    (descriptorGeneratorInit join scopesOf traceHelp d₁ ci).basePath =
      (descriptorGeneratorInit join scopesOf traceHelp d₂ ci).basePath := by
  refine ⟨rfl, ?_, ?_, ?_, ?_⟩
  · intro k
    rw [nameAssignments, nameAssignments, dget_map_resolve, dget_map_resolve]
    have hkeys : List.Perm ((d₁.schemas.getD []).map Prod.fst)
        ((d₂.schemas.getD []).map Prod.fst) := hs.map Prod.fst
    by_cases hk : k ∈ (d₁.schemas.getD []).map Prod.fst ++
        ["StandardQueryParameters"]
    · rw [if_pos hk, if_pos ((hkeys.append (List.Perm.refl _)).mem_iff.mp hk)]
    · rw [if_neg hk,
        if_neg (fun hk2 =>
          hk ((hkeys.append (List.Perm.refl _)).mem_iff.mpr hk2))]
  · rw [genState_servicesAdded_eq, genState_servicesAdded_eq]
    unfold servicesToAdd
    rw [sortByKey_eq_of_perm hr hrn, hmeth]
  · show (computePaths join ci.package.data ci.url_version.data
        d₁.rootUrl.data d₁.servicePath.data).1.1 = _
    rw [hroot, hsp]
    rfl
  · show (computePaths join ci.package.data ci.url_version.data
        d₁.rootUrl.data d₁.servicePath.data).1.2 = _
    rw [hroot, hsp]
    rfl

/-- `docW` with its `resources` dictionary listed in the opposite order. -/
def docWswapped : DiscoveryDoc :=
  { docW with resources := some [("a", Json.null), ("b", Json.null)] }

/-- **C5 witness.** Two representations of the same document with
`resources` listed in different orders produce the same name-assignment
lookups and the same registered service list. -/
theorem pipeline_deterministic_witness :
    (∀ k : String,
      dget (nameAssignments (fun n => n) docW) k =
        dget (nameAssignments (fun n => n) docWswapped) k) ∧
    (descriptorGeneratorInit joinW scopesW Json.null docW ciW).servicesAdded =
      (descriptorGeneratorInit joinW scopesW Json.null docWswapped
        ciW).servicesAdded := by
  refine ⟨?_, ?_⟩
  · exact (pipeline_deterministic joinW scopesW Json.null (fun n => n) ciW
      docW docWswapped rfl rfl rfl rfl rfl (List.Perm.refl _)
      (List.Perm.swap ("a", Json.null) ("b", Json.null) [])
      (by show (["b", "a"] : List String).Nodup; decide)).2.1
  · exact (pipeline_deterministic joinW scopesW Json.null (fun n => n) ciW
      docW docWswapped rfl rfl rfl rfl rfl (List.Perm.refl _)
      (List.Perm.swap ("a", Json.null) ("b", Json.null) [])
      (by show (["b", "a"] : List String).Nodup; decide)).2.2.1

/-! ## `gen_client.py`: `_GetCodegenFromFlags` and `GenerateClient.Run`

External collaborators (network fetch, filesystem, `util` helpers outside
`src/`) are supplied through an environment record.  `util.FetchDiscoveryDoc`
raising `CommunicationError` is `fetch = Except.error ()`; the uncaught
`ConfigurationValueError` raise is the `Except.error` of the result. -/

structure Flags where
  infile : String
  discovery_url : String
  outdir : String
  overwrite : Bool
  root_package_dir : String

structure Env where
  fetch : Except Unit DiscoveryDoc
  loadInfile : DiscoveryDoc
  expanduser : String → String
  pathExists : String → Bool
  clientInfoOf : DiscoveryDoc → ClientInfo
  abspath : String → String
  getPackage : String → String
  join : List Char → List Char → List Char
  scopesOf : List (String × Json) → List String
  traceHelp : Json

inductive GenError where
  | configurationValueError
deriving DecidableEq

/-- Lines 93–100: obtain the discovery document.  With `--discovery_url`
set, a `CommunicationError` from the fetch makes the function return `None`
(modelled `none`); otherwise the document is read from `--infile` (or
stdin). -/
def docFromFlags (env : Env) (fl : Flags) : Option DiscoveryDoc :=
  if fl.discovery_url ≠ "" then
    match env.fetch with
    | Except.ok d => some d
    | Except.error _ => none
  else
    some env.loadInfile

/-- Line 108: `os.path.expanduser(FLAGS.outdir) or client_info.default_directory`. -/
def resolvedOutdir (env : Env) (fl : Flags) (ci : ClientInfo) : String :=
  if env.expanduser fl.outdir ≠ "" then env.expanduser fl.outdir
  else ci.default_directory

/-- Model of `_GetCodegenFromFlags()` (lines 91–119): document acquisition,
client-info derivation, output-directory resolution, the
exists-without-overwrite check (raising `ConfigurationValueError`), root
package resolution, and finally `DescriptorGenerator` construction. -/
def getCodegenFromFlags (env : Env) (fl : Flags) :
    Except GenError (Option GenState) :=
  match docFromFlags env fl with
  | none => Except.ok none
  | some doc =>
    let ci := env.clientInfoOf doc
    let outdir := resolvedOutdir env fl ci
    if env.pathExists outdir && !fl.overwrite then
      Except.error GenError.configurationValueError
    else
      let rpd := if fl.root_package_dir = "" then outdir
        else fl.root_package_dir
      let root_package := env.getPackage (env.abspath rpd)
      Except.ok (some (descriptorGeneratorInit env.join env.scopesOf
        env.traceHelp doc ci))

/-- The outcome of `GenerateClient.Run`: the returned value (`None` on
success, `128` on codegen failure) and whether `logging.error` was
called. -/
structure RunOutcome where
  ret : Option Nat
  loggedError : Bool
deriving DecidableEq

/-- Model of `GenerateClient.Run` (lines 161–168): a `None` codegen logs an
error and returns 128; otherwise the generated files are written (external)
and the command returns `None`; an uncaught exception propagates. -/
def generateClientRun (env : Env) (fl : Flags) : Except GenError RunOutcome :=
  match getCodegenFromFlags env fl with
  | Except.error e => Except.error e
  | Except.ok none => Except.ok { ret := some 128, loggedError := true }
  | Except.ok (some _) => Except.ok { ret := none, loggedError := false }

/-- **C8.** Whenever the document is obtained, if the resolved output
directory (the expanded `--outdir`, or the client's default directory when
that expands to empty) exists and `--overwrite` is false,
`_GetCodegenFromFlags` fails with the configuration error — the error
result carries no generator, so none is constructed; when the directory
does not exist or `--overwrite` is true, no such error is raised. -/
theorem outdirExists_config_error (env : Env) (fl : Flags)
    (doc : DiscoveryDoc) (hdoc : docFromFlags env fl = some doc) :
    (env.pathExists (resolvedOutdir env fl (env.clientInfoOf doc)) = true →
      fl.overwrite = false →
      getCodegenFromFlags env fl =
        Except.error GenError.configurationValueError) ∧
    ((env.pathExists (resolvedOutdir env fl (env.clientInfoOf doc)) = false ∨
        fl.overwrite = true) →
      ∀ e : GenError, getCodegenFromFlags env fl ≠ Except.error e) := by
  constructor
  · intro hex how
    simp [getCodegenFromFlags, hdoc, hex, how]
  · intro hcase e
    rcases hcase with hex | how
    · simp [getCodegenFromFlags, hdoc, hex]
    · simp [getCodegenFromFlags, hdoc, how]

/-- Environment used by the C8 witness: the filesystem says every path
exists. -/
def envExists : Env :=
  { fetch := Except.ok docW
    loadInfile := docW
    expanduser := fun s => s
    pathExists := fun _ => true
    clientInfoOf := fun _ => ciW
    abspath := fun s => s
    getPackage := fun s => s
    join := joinW
    scopesOf := scopesW
    traceHelp := Json.null }

def flagsNoOverwrite : Flags :=
  { infile := "doc.json"
    discovery_url := ""
    outdir := "out"
    overwrite := false
    root_package_dir := "" }

/-- **C8 witness.** Reading from `--infile` with an existing output
directory and no `--overwrite`, the codegen call fails with the
configuration error. -/
theorem outdirExists_config_error_witness :
    docFromFlags envExists flagsNoOverwrite = some docW ∧
    envExists.pathExists (resolvedOutdir envExists flagsNoOverwrite
      (envExists.clientInfoOf docW)) = true ∧
    flagsNoOverwrite.overwrite = false ∧
    getCodegenFromFlags envExists flagsNoOverwrite =
      Except.error GenError.configurationValueError := by
  refine ⟨rfl, rfl, rfl, ?_⟩
  exact (outdirExists_config_error envExists flagsNoOverwrite docW rfl).1
    rfl rfl

/-- **C9.** When the fetch from `--discovery_url` fails with a
communication error, `_GetCodegenFromFlags` returns no generator (the
result is `none`: no registry is constructed and the single fetch is not
retried), and `GenerateClient.Run` logs an error and returns the non-zero
result 128. -/
theorem fetchFailure_returns_none_and_128 (env : Env) (fl : Flags)
    (hurl : fl.discovery_url ≠ "")
    (hfail : env.fetch = Except.error ()) :
    getCodegenFromFlags env fl = Except.ok none ∧
    generateClientRun env fl =
      Except.ok { ret := some 128, loggedError := true } := by
  have hdoc : docFromFlags env fl = none := by
    simp [docFromFlags, hurl, hfail]
  constructor
  · simp [getCodegenFromFlags, hdoc]
  · simp [generateClientRun, getCodegenFromFlags, hdoc]

/-- Environment used by the C9 witness: the network fetch fails. -/
def envFetchFails : Env :=
  { fetch := Except.error ()
    loadInfile := docW
    expanduser := fun s => s
    pathExists := fun _ => false
    clientInfoOf := fun _ => ciW
    abspath := fun s => s
    getPackage := fun s => s
    join := joinW
    scopesOf := scopesW
    traceHelp := Json.null }

def flagsWithUrl : Flags :=
  { infile := ""
    discovery_url := "https://example.com/discovery"
    outdir := "out"
    overwrite := false
    root_package_dir := "" }

/-- **C9 witness.** With `--discovery_url` set and a failing fetch, the
codegen is `none` and the command returns 128 after logging an error. -/
theorem fetchFailure_returns_none_and_128_witness :
    flagsWithUrl.discovery_url ≠ "" ∧
    envFetchFails.fetch = Except.error () ∧
    getCodegenFromFlags envFetchFails flagsWithUrl = Except.ok none ∧
    generateClientRun envFetchFails flagsWithUrl =
      Except.ok { ret := some 128, loggedError := true } := by
  refine ⟨by simp [flagsWithUrl], rfl, ?_, ?_⟩
  · exact (fetchFailure_returns_none_and_128 envFetchFails flagsWithUrl
      (by simp [flagsWithUrl]) rfl).1
  · exact (fetchFailure_returns_none_and_128 envFetchFails flagsWithUrl
      (by simp [flagsWithUrl]) rfl).2

end Apitools
